import Mathlib

/-!
Verification of the git-handler repository cache / tree-materialization core
(`resources/handler.py`) against its specification.

The Python code is shallowly embedded: pure fragments become Lean functions;
filesystem and repository state are passed explicitly; raised exceptions become
`Except` errors.  Python strings are Lean `String`s, Python `bytes` are
`List UInt8`, Python dictionaries that the code builds key-by-key are
association lists that preserve insertion order.
-/

namespace GitHandler

/-! ## Python string primitives used by the code -/

/-- Python `s.replace(pat, repl)` on character lists for a non-empty pattern:
left-to-right, non-overlapping, scanning the original string (replacements are
not re-scanned).  Structural recursion on a fuel bound (any fuel of at least
the list's length computes the replacement; the code only uses the pattern
`"origin/"`, which is non-empty, so the empty-pattern behaviour of Python is
irrelevant here). -/
def pyCharsReplaceF (pat repl : List Char) : Nat → List Char → List Char
  | _, [] => []
  | 0, s => s
  | Nat.succ fuel, c :: rest =>
    if pat ≠ [] ∧ pat.isPrefixOf (c :: rest) then
      repl ++ pyCharsReplaceF pat repl fuel ((c :: rest).drop pat.length)
    else c :: pyCharsReplaceF pat repl fuel rest

/-- Python `s.replace(pat, repl)` on strings. -/
def strReplace (s pat repl : String) : String :=
  ⟨pyCharsReplaceF pat.data repl.data s.data.length s.data⟩

/-- Python `c.lower()` for the ASCII range (directory and branch names in
this code are compared after `.lower()`). -/
def pyLower (s : String) : String :=
  ⟨s.data.map Char.toLower⟩

/-- Python whitespace as recognized by `str.strip()` (ASCII range). -/
def isPySpace (c : Char) : Bool :=
  c = ' ' ∨ c = '\t' ∨ c = '\n' ∨ c = '\r' ∨ c = Char.ofNat 11 ∨ c = Char.ofNat 12

/-- Python `s.strip()`: remove leading and trailing whitespace. -/
def pyStrip (s : String) : String :=
  ⟨((s.data.dropWhile isPySpace).reverse.dropWhile isPySpace).reverse⟩

/-- The splitting loop of Python `s.split(sep)` for a one-character separator
(accumulator holds the current field reversed). -/
def splitCharAux (sep : Char) (cur : List Char) : List Char → List String
  | [] => [⟨cur.reverse⟩]
  | c :: rest =>
    if c = sep then (⟨cur.reverse⟩ : String) :: splitCharAux sep [] rest
    else splitCharAux sep (c :: cur) rest

/-- Python `s.split(sep)` for a one-character separator: every occurrence
separates two fields, and the result is never empty (`''.split('/') == ['']`). -/
def pySplitChar (sep : Char) (s : String) : List String :=
  splitCharAux sep [] s.data

/-! ## UTF-8 codec (`bytes.decode('utf-8')` / `str.encode('utf-8')`) -/

/-- Strict UTF-8 decoding of a byte list: `Option.none` is Python's
`UnicodeDecodeError` (truncated or malformed sequences, overlong encodings,
surrogates and out-of-range code points are rejected). -/
def utf8Decode : List UInt8 → Option (List Char)
  | [] => some []
  | b0 :: rest =>
    let n0 := b0.toNat
    if n0 < 128 then
      match utf8Decode rest with
      | some cs => some (Char.ofNat n0 :: cs)
      | Option.none => Option.none
    else if 192 ≤ n0 ∧ n0 < 224 then
      match rest with
      | b1 :: rest1 =>
        let n1 := b1.toNat
        if 128 ≤ n1 ∧ n1 < 192 then
          let c := (n0 - 192) * 64 + (n1 - 128)
          if 128 ≤ c then
            match utf8Decode rest1 with
            | some cs => some (Char.ofNat c :: cs)
            | Option.none => Option.none
          else Option.none
        else Option.none
      | [] => Option.none
    else if 224 ≤ n0 ∧ n0 < 240 then
      match rest with
      | b1 :: b2 :: rest2 =>
        let n1 := b1.toNat
        let n2 := b2.toNat
        if (128 ≤ n1 ∧ n1 < 192) ∧ (128 ≤ n2 ∧ n2 < 192) then
          let c := (n0 - 224) * 4096 + (n1 - 128) * 64 + (n2 - 128)
          if 2048 ≤ c ∧ ¬ (55296 ≤ c ∧ c < 57344) then
            match utf8Decode rest2 with
            | some cs => some (Char.ofNat c :: cs)
            | Option.none => Option.none
          else Option.none
        else Option.none
      | _ => Option.none
    else if 240 ≤ n0 ∧ n0 < 245 then
      match rest with
      | b1 :: b2 :: b3 :: rest3 =>
        let n1 := b1.toNat
        let n2 := b2.toNat
        let n3 := b3.toNat
        if (128 ≤ n1 ∧ n1 < 192) ∧ (128 ≤ n2 ∧ n2 < 192) ∧ (128 ≤ n3 ∧ n3 < 192) then
          let c := (n0 - 240) * 262144 + (n1 - 128) * 4096 + (n2 - 128) * 64 + (n3 - 128)
          if 65536 ≤ c ∧ c ≤ 1114111 then
            match utf8Decode rest3 with
            | some cs => some (Char.ofNat c :: cs)
            | Option.none => Option.none
          else Option.none
        else Option.none
      | _ => Option.none
    else Option.none

/-- UTF-8 encoding of one code point. -/
def utf8EncodeChar (c : Char) : List UInt8 :=
  let n := c.toNat
  if n < 128 then [UInt8.ofNat n]
  else if n < 2048 then [UInt8.ofNat (192 + n / 64), UInt8.ofNat (128 + n % 64)]
  else if n < 65536 then
    [UInt8.ofNat (224 + n / 4096), UInt8.ofNat (128 + n / 64 % 64),
      UInt8.ofNat (128 + n % 64)]
  else
    [UInt8.ofNat (240 + n / 262144), UInt8.ofNat (128 + n / 4096 % 64),
      UInt8.ofNat (128 + n / 64 % 64), UInt8.ofNat (128 + n % 64)]

/-- Python `s.encode('utf-8')`. -/
def utf8Encode (s : String) : List UInt8 :=
  (s.data.map utf8EncodeChar).flatten

/-- Python `s.startswith('/')`. -/
def startsSlash (s : String) : Bool :=
  s.data.head? = some '/'

/-- Python `s.endswith('/')`. -/
def endsSlash (s : String) : Bool :=
  s.data.getLast? = some '/'

/-- POSIX `os.path.join(a, b)` for two components: an absolute second
component discards the first; otherwise a separator is inserted unless the
first component is empty or already ends with one. -/
def path_join (a b : String) : String :=
  if startsSlash b then b
  else if a = "" ∨ endsSlash a then a ++ b
  else a ++ "/" ++ b

/-! ## Exceptions and handler state -/

/-- `fastapi.HTTPException(status_code, detail)` as raised by the code. -/
structure HTTPException where
  status_code : Nat
  detail : String
deriving DecidableEq, Repr

/-- An error escaping a handler method: either an `HTTPException` raised on
purpose, or an uncaught OS-level error (e.g. `FileNotFoundError` from `open`),
identified by the offending path. -/
inductive PyErr where
  | http (e : HTTPException)
  | os (path : String)
deriving DecidableEq, Repr

/-- The `GitHandler` attributes consulted by the methods under study:
`self.url` (the repository locator), `self.default_branch`, and
`self.target_dir` (the local mirror's directory). -/
structure GState where
  url : String
  default_branch : String
  target_dir : String
deriving DecidableEq, Repr

/-- The filesystem visible to the handler: an association of absolute paths of
regular files to their decoded text contents.  `os.path.isfile p` is `p` being
a key; `open(p).read()` returns the associated content. -/
abbrev FS := List (String × String)

/-- First-match association lookup (a path occurs at most once on a real
filesystem; the first binding wins). -/
def fsLookup (fs : FS) (p : String) : Option String :=
  match fs with
  | [] => Option.none
  | (q, c) :: rest => if q = p then some c else fsLookup rest p

/-! ## Branch resolver -/

/-- A `git.RemoteReference` as far as the code consults it: its `name`. -/
structure RemoteReference where
  name : String
deriving DecidableEq, Repr

/-- The mirror's fetch state, as far as `get_remote_branches` consults it: the
list of branch names existing on the remote.  GitPython names the remote
reference of branch `b` of the (sole, default-named) remote `origin/b`;
`get_remote_branches` returns `self.repo.remote().refs`. -/
structure FetchState where
  remote_branch_names : List String
deriving DecidableEq, Repr

/-- `GitHandler.get_remote_branches`: the remote references known to the
mirror, one per remote branch, named `origin/<branch>`. -/
def get_remote_branches (st : FetchState) : List RemoteReference :=
  st.remote_branch_names.map (fun b => ⟨"origin/" ++ b⟩)

/-- `GitHandler.get_branches_names`:
`[x.name.replace('origin/', '') for x in self.get_remote_branches()]`. -/
def get_branches_names (st : FetchState) : List String :=
  (get_remote_branches st).map (fun x => strReplace x.name "origin/" "")

/-- Modelled from the spec's words for comparison with the code: stripping the
remote-qualifying prefix `origin/` from a reference name (only a leading
occurrence is removed). -/
def stripRemotePrefixSpec (n : String) : String :=
  if "origin/".data.isPrefixOf n.data then ⟨n.data.drop 7⟩ else n

/-! ## Content & phrase verifier: `get_file` -/

/-- The `FileNotFound` message built by `get_file`. -/
def file_not_found_msg (g : GState) (filename : String) : String :=
  "Файл " ++ filename ++ " не найден в репозитории <a href=\"" ++ g.url ++
    "\" class=\"font-weight-bold\" target=\"_blank\"><u>" ++ g.url ++ "</u></a>"

/-- `GitHandler.get_file`: joins `filename` onto `self.target_dir`; if the
joined path is not a regular file, raises an `HTTPException` (FileNotFound);
otherwise opens `os.path.join(self.target_dir, full_path)` — note the second
join of the already-joined path, as in the source — and returns its content
(an uncaught `FileNotFoundError` if that second path is no file). -/
def get_file (g : GState) (fs : FS) (filename : String) : Except PyErr String :=
  let full_path := path_join g.target_dir filename
  if (fsLookup fs full_path).isNone then
    Except.error (PyErr.http ⟨400, file_not_found_msg g filename⟩)
  else
    match fsLookup fs (path_join g.target_dir full_path) with
    | some c => Except.ok c
    | Option.none => Except.error (PyErr.os (path_join g.target_dir full_path))

/-! ## Mutual exclusion lock: `Locker.is_locked` -/

/-- `Locker.is_locked`, with time as integer ticks.  The lock marker file
either is absent (`Option.none`) or records an absolute expiry instant.
The result is the returned boolean together with the marker state after the
call (the marker is removed when its expiry lies strictly in the past). -/
def is_locked (marker : Option Int) (now : Int) : Bool × Option Int :=
  match marker with
  | Option.none => (false, Option.none)
  | some target_date =>
    if target_date < now then (false, Option.none)
    else (true, some target_date)

/-! ## Cache manager construction (`GitHandler.__init__`), clone branch -/

/-- Outcome of `git.Repo.clone_from`. -/
inductive CloneRes where
  | success
  | gitError (msg : String)
deriving DecidableEq, Repr

/-- The environment `__init__` interacts with: whether `git.Repo(target_dir)`
succeeds (a valid mirror exists), whether the target directory exists on disk,
the outcome of a clone were one attempted, the branch checked out after the
open/clone, and the outcome of `git checkout <default_branch>` were one
attempted. -/
structure CtorEnv where
  existing_valid : Bool
  dir_exists : Bool
  clone : CloneRes
  current_branch : String
  checkout_ok : Bool
  checkout_err : String
deriving DecidableEq, Repr

/-- Observable constructor outcome: the final existence of the target
directory and the `is_cloned` flag. -/
structure CtorState where
  dir_exists : Bool
  is_cloned : Bool
deriving DecidableEq, Repr

/-- The tail of `__init__`: checkout of the default branch when it differs
from the currently checked-out branch, failing with an `HTTPException`
carrying the git error text when the checkout fails. -/
def checkout_step (default_branch : String) (env : CtorEnv) (st : CtorState) :
    CtorState × Except HTTPException Unit :=
  if default_branch ≠ env.current_branch then
    if env.checkout_ok then (st, Except.ok ())
    else (st, Except.error ⟨400, env.checkout_err⟩)
  else (st, Except.ok ())

/-- `GitHandler.__init__` from the existence check onwards: open the mirror
and refresh it, or else wipe any stale directory, recreate it, clone, and on a
clone failure remove the directory again and raise
`HTTPException(400, 'Repository ... does not exist. Error: ...')`. -/
def git_handler_init (repo default_branch : String) (env : CtorEnv) :
    CtorState × Except HTTPException Unit :=
  if env.existing_valid then
    checkout_step default_branch env ⟨env.dir_exists, false⟩
  else
    match env.clone with
    | CloneRes.gitError e =>
      (⟨false, false⟩,
        Except.error ⟨400, "Repository " ++ repo ++ " does not exist. Error: " ++ e⟩)
    | CloneRes.success => checkout_step default_branch env ⟨true, true⟩

/-! ## Blobs, per-file records and content processors -/

/-- A `git.Blob` as far as the code consults it: its `name` and the raw bytes
`data_stream.read()` yields. -/
structure Blob where
  name : String
  data : List UInt8
deriving DecidableEq, Repr

/-- The value stored under `'content'` in a per-file record: Python `str` or
Python `bytes` (the base64 processor stores bytes). -/
inductive FieldVal where
  | str (s : String)
  | bytes (bs : List UInt8)
deriving DecidableEq, Repr

/-- A per-file record: starts as `{'filename': b.name}`; processors may add a
`'content'` field. -/
structure FileDict where
  filename : String
  content : Option FieldVal
deriving DecidableEq, Repr

/-- One hexadecimal digit, lower case, as used by Python byte `repr`. -/
def hexChar (n : Nat) : Char :=
  if n < 10 then Char.ofNat (48 + n) else Char.ofNat (87 + n)

/-- Python `repr` of one byte inside a `bytes` literal: common escapes,
printable ASCII verbatim, `\xhh` otherwise. -/
def pyByteEscape (b : UInt8) : List Char :=
  let n := b.toNat
  if n = 92 then ['\\', '\\']
  else if n = 39 then ['\\', Char.ofNat 39]
  else if n = 9 then ['\\', 't']
  else if n = 10 then ['\\', 'n']
  else if n = 13 then ['\\', 'r']
  else if 32 ≤ n ∧ n < 127 then [Char.ofNat n]
  else ['\\', 'x', hexChar (n / 16), hexChar (n % 16)]

/-- Python `str(content)` for `content : bytes`: the `b'...'` literal form. -/
def pyBytesRepr (bs : List UInt8) : String :=
  ⟨'b' :: Char.ofNat 39 :: ((bs.map pyByteEscape).flatten ++ [Char.ofNat 39])⟩

/-- The blob content attached by `cp_add_blob_content`:
`content.decode('utf-8')`, falling back to `str(content)` on
`UnicodeDecodeError`. -/
def blobDecoded (b : Blob) : String :=
  match utf8Decode b.data with
  | some cs => ⟨cs⟩
  | Option.none => pyBytesRepr b.data

/-- `GitHandler.cp_add_blob_content`: reads the blob's bytes, decodes them
(with the `str` fallback) and stores the result under `'content'`. -/
def cp_add_blob_content (fd : FileDict) (b : Blob) : FileDict :=
  { fd with content := some (FieldVal.str (blobDecoded b)) }

/-- The standard base64 alphabet. -/
def b64Table : List Char :=
  "ABCDEFGHIJKLMNOPQRSTUVWXYZabcdefghijklmnopqrstuvwxyz0123456789+/".data

/-- Byte of the base64 character for a 6-bit value. -/
def b64Byte (n : Nat) : UInt8 :=
  UInt8.ofNat (b64Table.getD n 'A').toNat

/-- RFC 4648 base64 encoding of a byte sequence (`base64.b64encode`),
producing the ASCII bytes of the encoding. -/
def base64Encode : List UInt8 → List UInt8
  | b1 :: b2 :: b3 :: rest =>
    let n := b1.toNat * 65536 + b2.toNat * 256 + b3.toNat
    b64Byte (n / 262144) :: b64Byte (n / 4096 % 64) :: b64Byte (n / 64 % 64) ::
      b64Byte (n % 64) :: base64Encode rest
  | [b1, b2] =>
    let n := b1.toNat * 65536 + b2.toNat * 256
    [b64Byte (n / 262144), b64Byte (n / 4096 % 64), b64Byte (n / 64 % 64),
      UInt8.ofNat 61]
  | [b1] =>
    let n := b1.toNat * 65536
    [b64Byte (n / 262144), b64Byte (n / 4096 % 64), UInt8.ofNat 61,
      UInt8.ofNat 61]
  | [] => []

/-- Python truthiness of the optional `'content'` field (`if not content`):
absent, the empty string and empty bytes are falsy. -/
def contentFalsy : Option FieldVal → Bool
  | Option.none => true
  | some (FieldVal.str s) => s = ""
  | some (FieldVal.bytes bs) => bs = []

/-- `GitHandler.cp_encode_blob_base64`: if `'content'` is falsy, first attach
the decoded text; then `content.encode('utf-8')` and base64-encode it.  When
the present content is (non-empty) bytes, `content.encode` raises
`AttributeError` — modelled as `Option.none`. -/
def cp_encode_blob_base64 (fd : FileDict) (b : Blob) : Option FileDict :=
  let fd := if contentFalsy fd.content then cp_add_blob_content fd b else fd
  match fd.content with
  | some (FieldVal.str s) =>
    some { fd with content := some (FieldVal.bytes (base64Encode (utf8Encode s))) }
  | some (FieldVal.bytes _) => Option.none
  | Option.none => Option.none

/-- The closed set of content processors defined on the handler
(`GitHandler.ContentProcessors`). -/
inductive ContentProcessors where
  | cp_add_blob_content
  | cp_encode_blob_base64
deriving DecidableEq, Repr

/-- Dispatch of one named content processor on a per-file record (the two
processors ignore their node argument; `Option.none` models an exception
escaping the processor). -/
def cpApply : ContentProcessors → FileDict → Blob → Option FileDict
  | ContentProcessors.cp_add_blob_content, fd, b => some (cp_add_blob_content fd b)
  | ContentProcessors.cp_encode_blob_base64, fd, b => cp_encode_blob_base64 fd b

/-- The per-file record built for blob `b` inside `_get_tree`: start from
`{'filename': b.name}` and, when a processor list was given, apply each in
order. -/
def mkFileDict (cps : Option (List ContentProcessors)) (b : Blob) :
    Option FileDict :=
  match cps with
  | Option.none => some ⟨b.name, Option.none⟩
  | some ps => ps.foldlM (fun fd p => cpApply p fd b) ⟨b.name, Option.none⟩

/-! ## Tree materializer -/

/-- A `git.Tree`: its `name`, its direct file children (`blobs`) and its
direct directory children (`trees`).  The root tree of a branch has name `''`
(GitPython's basename of the empty path). -/
inductive GitTree where
  | mk (name : String) (blobs : List Blob) (trees : List GitTree)

def GitTree.name : GitTree → String
  | GitTree.mk n _ _ => n

def GitTree.blobs : GitTree → List Blob
  | GitTree.mk _ bs _ => bs

def GitTree.trees : GitTree → List GitTree
  | GitTree.mk _ _ ts => ts

/-- A value of the nested result dictionary built by `_get_tree`: either the
list stored under a `'files'` key, or a nested dictionary (an association list
in insertion order, as Python dictionaries preserve it). -/
inductive Val where
  | vfiles (fds : List FileDict)
  | vdict (d : List (String × Val))

/-- The result dictionary type. -/
abbrev ResDict := List (String × Val)

/-- Python `res[k]` / `k in res` on the embedded dictionary. -/
def dictGet (d : ResDict) (k : String) : Option Val :=
  match d with
  | [] => Option.none
  | (k2, v) :: rest => if k2 = k then some v else dictGet rest k

/-- Python `res[k] = v`: replace in place if the key exists, else append. -/
def dictSet (d : ResDict) (k : String) (v : Val) : ResDict :=
  match d with
  | [] => [(k, v)]
  | (k2, v2) :: rest =>
    if k2 = k then (k2, v) :: rest else (k2, v2) :: dictSet rest k v

/-- The pruning test at the head of `_get_tree`:
`idx < len(path) and tree.name.lower() != path[idx].lower()`
(the default segment of `getD` is never consulted under the length guard). -/
def pruned (t : GitTree) (path : List String) (idx : Nat) : Bool :=
  decide (idx < path.length) && (pyLower (GitTree.name t) != pyLower (path.getD idx ""))

/-- The `for b in tree.blobs` loop of `_get_tree`: build one per-file record
per blob, in order (`Option.none` models an exception escaping a content
processor mid-loop). -/
def mkFileDicts (cps : Option (List ContentProcessors)) : List Blob →
    Option (List FileDict)
  | [] => some []
  | b :: rest =>
    match mkFileDict cps b with
    | Option.none => Option.none
    | some fd =>
      match mkFileDicts cps rest with
      | Option.none => Option.none
      | some fds => some (fd :: fds)

/-- `if tree.name not in res: res[tree.name] = {}`. -/
def ensureKey (res : ResDict) (name : String) : ResDict :=
  if (dictGet res name).isNone then dictSet res name (Val.vdict []) else res

/-- `if tree.blobs: res[tree.name] = {'files': [...]}` with the per-blob
records built by the processor pipeline. -/
def filesStep (res : ResDict) (name : String) (blobs : List Blob)
    (cps : Option (List ContentProcessors)) : Option ResDict :=
  if blobs.isEmpty then some res
  else
    match mkFileDicts cps blobs with
    | Option.none => Option.none
    | some fds => some (dictSet res name (Val.vdict [("files", Val.vfiles fds)]))

/-- `res = res[tree.name]` before recursing into child trees (the value at a
node's key is always a dictionary; the catch-all arm is unreachable). -/
def innerDict (res : ResDict) (name : String) : ResDict :=
  match dictGet res name with
  | some (Val.vdict d) => d
  | _ => []

mutual

/-- `GitHandler._get_tree`: prune on a path mismatch; otherwise ensure the
node's key exists, materialize a `'files'` list when the node has blobs
(applying the content processors per file), and recurse into child trees at
`idx + 1` inside the node's own dictionary.  `Option.none` models an exception
escaping from a content processor. -/
def _get_tree (res : ResDict) (t : GitTree) (path : List String) (idx : Nat)
    (cps : Option (List ContentProcessors)) : Option ResDict :=
  match t with
  | GitTree.mk name blobs trees =>
    if pruned (GitTree.mk name blobs trees) path idx then some res
    else
      match filesStep (ensureKey res name) name blobs cps with
      | Option.none => Option.none
      | some res2 =>
        if trees.isEmpty then some res2
        else
          match _get_tree_children (innerDict res2 name) trees path (idx + 1) cps with
          | Option.none => Option.none
          | some inner2 => some (dictSet res2 name (Val.vdict inner2))

/-- The `for t in tree.trees` loop of `_get_tree`. -/
def _get_tree_children (res : ResDict) (ts : List GitTree) (path : List String)
    (idx : Nat) (cps : Option (List ContentProcessors)) : Option ResDict :=
  match ts with
  | [] => some res
  | t :: rest =>
    match _get_tree res t path idx cps with
    | Option.none => Option.none
    | some r2 => _get_tree_children r2 rest path idx cps

end

/-- The `path` argument of `get_tree`: absent, an unsplit string, or an
already-split list of segments. -/
inductive PathArg where
  | nonePath
  | strPath (s : String)
  | listPath (l : List String)
deriving DecidableEq, Repr

/-- The path-argument normalization performed at the head of `get_tree`:
`None` becomes `['']`; a string is split on `'/'`; a list whose first element
is not `''` gets `''` inserted at index 0.  `Option.none` models the
`IndexError` that `path[0]` raises on an empty list. -/
def normalize_path : PathArg → Option (List String)
  | PathArg.nonePath => some [""]
  | PathArg.strPath s =>
    match pySplitChar '/' s with
    | [] => Option.none
    | x :: xs => some (if x ≠ "" then "" :: x :: xs else x :: xs)
  | PathArg.listPath l =>
    match l with
    | [] => Option.none
    | x :: xs => some (if x ≠ "" then "" :: x :: xs else x :: xs)

/-- `GitHandler.get_tree` for a resolved branch: the branch reference resolves
to the branch's root tree `root`, the path argument is normalized, and
`_get_tree` is run on an empty result dictionary from index 0. -/
def get_tree (root : GitTree) (path : PathArg)
    (cps : Option (List ContentProcessors)) : Option ResDict :=
  match normalize_path path with
  | Option.none => Option.none
  | some p => _get_tree [] root p 0 cps

/-- The caller-visible state of the `path` argument object after `get_tree`
returns: `None` and string arguments are rebound inside the function (the
caller's object is untouched), while a list argument is the very object
`path.insert(0, '')` mutates, so the caller observes the inserted root
segment.  `Option.none` models the `IndexError` on an empty list. -/
def get_tree_caller_path_after : PathArg → Option PathArg
  | PathArg.nonePath => some PathArg.nonePath
  | PathArg.strPath s => some (PathArg.strPath s)
  | PathArg.listPath [] => Option.none
  | PathArg.listPath (x :: xs) =>
    some (PathArg.listPath (if x ≠ "" then "" :: x :: xs else x :: xs))

/-! ## Content & phrase verifier: `files_contains` -/

/-- The `Phrase` model: literal content plus optional annotation text
(`pre`/`post` default to `''`). -/
structure Phrase where
  content : String
  pre : String
  post : String
deriving DecidableEq, Repr

/-- The `FileCheck` model: a filename plus its phrases. -/
structure FileCheck where
  filename : String
  phrases : List Phrase
deriving DecidableEq, Repr

/-- Observable evaluation events of `files_contains`: the initial refresh,
each file retrieval, and each phrase line tested against a file's content. -/
inductive Ev where
  | update
  | getFile (filename : String)
  | checkLine (filename line : String)
deriving DecidableEq, Repr

/-- The HTML link rendered for the checked file (`current_file`). -/
def current_file_link (g : GState) (filename : String) : String :=
  "<a href=\"" ++ g.url ++ "/blob/" ++ g.default_branch ++ "/" ++ filename ++
    "\" class=\"font-weight-bold\" target=\"_blank\"><u>" ++ filename ++ "</u></a>"

/-- The `ContentMismatch` message for a missing line of phrase `ph` (whose
stripped content is `content`) in file `filename`. -/
def content_mismatch_msg (g : GState) (filename content : String) (ph : Phrase) :
    String :=
  let msg := "Файл " ++ current_file_link g filename ++ " должен содержать " ++
    ph.pre ++ "<pre><code>" ++ content ++ "</code></pre>"
  if ph.post ≠ "" then msg ++ "\n" ++ ph.post else msg

/-- The `for line in lines` loop: each line, stripped, must occur as a
substring of the file content; the first missing line raises the
`ContentMismatch` `HTTPException` and ends evaluation. -/
def check_lines (g : GState) (filename content : String) (ph : Phrase)
    (file_content : String) : List String → List Ev × Except PyErr Unit
  | [] => ([], Except.ok ())
  | l :: ls =>
    if (pyStrip l).data <:+: file_content.data then
      let r := check_lines g filename content ph file_content ls
      (Ev.checkLine filename l :: r.1, r.2)
    else
      ([Ev.checkLine filename l],
        Except.error (PyErr.http ⟨400, content_mismatch_msg g filename content ph⟩))

/-- The `for phrase in file_check.phrases` loop: strip the phrase content,
split it into lines and check each line, stopping at the first failure. -/
def check_phrases (g : GState) (filename file_content : String) :
    List Phrase → List Ev × Except PyErr Unit
  | [] => ([], Except.ok ())
  | ph :: ps =>
    let content := pyStrip ph.content
    let r1 := check_lines g filename content ph file_content (pySplitChar '\n' content)
    match r1.2 with
    | Except.error e => (r1.1, Except.error e)
    | Except.ok _ =>
      let r2 := check_phrases g filename file_content ps
      (r1.1 ++ r2.1, r2.2)

/-- The `for file_check in checks` loop: retrieve each file (propagating the
retrieval error) and check its phrases, stopping at the first failure. -/
def check_files (g : GState) (fs : FS) :
    List FileCheck → List Ev × Except PyErr Unit
  | [] => ([], Except.ok ())
  | fc :: fcs =>
    match get_file g fs fc.filename with
    | Except.error e => ([Ev.getFile fc.filename], Except.error e)
    | Except.ok file_content =>
      let r1 := check_phrases g fc.filename file_content fc.phrases
      match r1.2 with
      | Except.error e => (Ev.getFile fc.filename :: r1.1, Except.error e)
      | Except.ok _ =>
        let r2 := check_files g fs fcs
        (Ev.getFile fc.filename :: (r1.1 ++ r2.1), r2.2)

/-- `GitHandler.files_contains`: first `self.update()` (the refresh; `fs` is
the filesystem state after it), then the checks in order.  The first component
records the evaluation events in order, the second the outcome. -/
def files_contains (g : GState) (fs : FS) (checks : List FileCheck) :
    List Ev × Except PyErr Unit :=
  let r := check_files g fs checks
  (Ev.update :: r.1, r.2)

/-! ## Concrete sample data used by witnesses and counterexamples -/

/-- A small repository root tree: the root (named `''`, as GitPython names a
branch's root tree) holds one file `a.txt` (content byte `A`) and one
subdirectory `sub` holding one file `s.txt` (content byte `B`). -/
def sampleRoot : GitTree :=
  GitTree.mk "" [⟨"a.txt", [65]⟩] [GitTree.mk "sub" [⟨"s.txt", [66]⟩] []]

end GitHandler

namespace GitHandler

/-! ## Helper lemmas -/

theorem dictGet_dictSet_self (d : ResDict) (k : String) (v : Val) :
    dictGet (dictSet d k v) k = some v := by
  induction d with
  | nil => simp [dictSet, dictGet]
  | cons hd tl ih =>
    obtain ⟨k2, v2⟩ := hd
    by_cases hk : k2 = k
    · simp [dictSet, dictGet, hk]
    · simp [dictSet, dictGet, hk, ih]

theorem str_infix_middle (a b c : String) : b.data <:+: (a ++ b ++ c).data :=
  ⟨a.data, c.data, by simp [String.data_append]⟩

theorem pyCharsReplaceF_no_occurrence (pat repl : List Char) :
    ∀ (fuel : Nat) (s : List Char), s.length ≤ fuel → ¬ pat <:+: s →
      pyCharsReplaceF pat repl fuel s = s := by
  intro fuel
  induction fuel with
  | zero =>
    intro s hlen h
    cases s with
    | nil => rfl
    | cons c rest => simp at hlen
  | succ f ih =>
    intro s hlen h
    cases s with
    | nil => rfl
    | cons c rest =>
      simp only [pyCharsReplaceF]
      rw [if_neg]
      · rw [ih rest (by simpa using Nat.le_of_succ_le_succ (by simpa using hlen))
          (fun hi => h (List.infix_cons hi))]
      · rintro ⟨hp1, hp2⟩
        exact h ((List.isPrefixOf_iff_prefix.mp hp2).isInfix)

theorem pyCharsReplaceF_head (c : Char) (pt repl rest : List Char) (fuel : Nat) :
    pyCharsReplaceF (c :: pt) repl (fuel + 1) (c :: (pt ++ rest)) =
      repl ++ pyCharsReplaceF (c :: pt) repl fuel rest := by
  simp only [pyCharsReplaceF]
  rw [if_pos]
  · congr 1
    simp [List.drop_left]
  · refine ⟨by simp, ?_⟩
    exact List.isPrefixOf_iff_prefix.mpr (List.prefix_append (c :: pt) rest)

theorem strReplace_strip_prefix (b : String) (h : ¬ ("origin/".data <:+: b.data)) :
    strReplace ("origin/" ++ b) "origin/" "" = b := by
  show (⟨pyCharsReplaceF "origin/".data "".data ("origin/" ++ b).data.length
    ("origin/" ++ b).data⟩ : String) = b
  have hdata : ("origin/" ++ b).data = 'o' :: ("rigin/".data ++ b.data) := by
    rw [String.data_append]; rfl
  rw [hdata]
  have hlen : ('o' :: ("rigin/".data ++ b.data)).length = (b.data.length + 6) + 1 := by
    simp
  rw [hlen]
  rw [show ("origin/".data : List Char) = 'o' :: "rigin/".data from rfl]
  rw [pyCharsReplaceF_head]
  rw [pyCharsReplaceF_no_occurrence ('o' :: "rigin/".data) "".data (b.data.length + 6)
    b.data (by omega) h]
  rfl

theorem stripRemotePrefixSpec_append (b : String) :
    stripRemotePrefixSpec ("origin/" ++ b) = b := by
  unfold stripRemotePrefixSpec
  rw [if_pos]
  · show (⟨(("origin/" ++ b).data).drop 7⟩ : String) = ⟨b.data⟩
    refine congrArg String.mk ?_
    rw [String.data_append]
    exact List.drop_left "origin/".data b.data
  · rw [String.data_append]
    exact List.isPrefixOf_iff_prefix.mpr (List.prefix_append _ _)

theorem _get_tree_pruned (res : ResDict) (t : GitTree) (path : List String)
    (idx : Nat) (cps : Option (List ContentProcessors))
    (hp : pruned t path idx = true) :
    _get_tree res t path idx cps = some res := by
  cases t with
  | mk name blobs trees => simp [_get_tree, hp]

theorem _get_tree_children_pruned (ts : List GitTree) (res : ResDict)
    (path : List String) (idx : Nat) (cps : Option (List ContentProcessors))
    (h : ∀ t ∈ ts, pruned t path idx = true) :
    _get_tree_children res ts path idx cps = some res := by
  induction ts generalizing res with
  | nil => rfl
  | cons t rest ih =>
    simp only [_get_tree_children]
    rw [_get_tree_pruned res t path idx cps (h t (by simp))]
    exact ih res (fun t2 ht2 => h t2 (by simp [ht2]))

theorem mkFileDicts_none (blobs : List Blob) :
    mkFileDicts Option.none blobs =
      some (blobs.map (fun b => ⟨b.name, Option.none⟩)) := by
  induction blobs with
  | nil => rfl
  | cons b rest ih => simp [mkFileDicts, ih, mkFileDict]

theorem dictGet_ensureKey (res : ResDict) (name : String) :
    dictGet (ensureKey res name) name ≠ Option.none := by
  unfold ensureKey
  by_cases hg : (dictGet res name).isNone
  · simp [hg, dictGet_dictSet_self]
  · rw [if_neg hg]
    exact fun h => hg (Option.isNone_iff_eq_none.mpr h)

theorem filesStep_key (res : ResDict) (name : String) (blobs : List Blob)
    (cps : Option (List ContentProcessors)) (res2 : ResDict)
    (h : filesStep res name blobs cps = some res2)
    (hk : dictGet res name ≠ Option.none) :
    dictGet res2 name ≠ Option.none := by
  unfold filesStep at h
  by_cases hb : blobs.isEmpty
  · simp only [hb, if_true, Option.some.injEq] at h
    subst h
    exact hk
  · simp only [hb, Bool.false_eq_true, if_false] at h
    cases hm : mkFileDicts cps blobs with
    | none => rw [hm] at h; simp at h
    | some fds =>
      rw [hm] at h
      simp only [Bool.false_eq_true, if_false, Option.some.injEq] at h
      subst h
      simp [dictGet_dictSet_self]

theorem _get_tree_key (name : String) (blobs : List Blob) (trees : List GitTree)
    (path : List String) (idx : Nat) (cps : Option (List ContentProcessors))
    (res r : ResDict)
    (hp : pruned (GitTree.mk name blobs trees) path idx = false)
    (hr : _get_tree res (GitTree.mk name blobs trees) path idx cps = some r) :
    dictGet r name ≠ Option.none := by
  simp only [_get_tree, hp, Bool.false_eq_true, if_false] at hr
  cases hf : filesStep (ensureKey res name) name blobs cps with
  | none => rw [hf] at hr; simp at hr
  | some res2 =>
    rw [hf] at hr
    have hk2 : dictGet res2 name ≠ Option.none :=
      filesStep_key _ _ _ _ _ hf (dictGet_ensureKey res name)
    simp only at hr
    by_cases ht : trees.isEmpty
    · simp only [ht, if_true, Option.some.injEq] at hr
      subst hr
      exact hk2
    · simp only [ht, Bool.false_eq_true, if_false] at hr
      cases hc : _get_tree_children (innerDict res2 name) trees path (idx + 1) cps with
      | none => rw [hc] at hr; simp at hr
      | some i2 =>
        rw [hc] at hr
        simp only [Bool.false_eq_true, if_false, Option.some.injEq] at hr
        subst hr
        simp [dictGet_dictSet_self]

theorem startsSlash_append (a b : String) (h : startsSlash a = true) :
    startsSlash (a ++ b) = true := by
  unfold startsSlash at h ⊢
  rw [String.data_append]
  cases ha : a.data with
  | nil => rw [ha] at h; simp at h
  | cons c t =>
    rw [ha] at h
    simp only [List.head?_cons, Option.some.injEq, decide_eq_true_eq] at h
    subst h
    simp

theorem startsSlash_path_join (a b : String) (h : startsSlash a = true) :
    startsSlash (path_join a b) = true := by
  unfold path_join
  by_cases hb : startsSlash b
  · simp [hb]
  · simp only [hb, Bool.false_eq_true, if_false]
    by_cases he : a = "" ∨ endsSlash a
    · rw [if_pos he]
      exact startsSlash_append a b h
    · rw [if_neg he]
      exact startsSlash_append (a ++ "/") b (startsSlash_append a "/" h)

theorem path_join_of_startsSlash (a b : String) (h : startsSlash b = true) :
    path_join a b = b := by
  unfold path_join
  rw [if_pos h]

/-! ## Claim C6: `get_file` -/

/-- Claim C6: with an absolute mirror directory (as always constructed —
the default root is `/tmp/`), `get_file` consults the filename joined onto the
mirror's target directory; when no regular file exists there it raises the
FileNotFound `HTTPException` whose message carries the filename and the
repository locator, and otherwise it returns the file's full decoded text
content. -/
theorem C6_get_file (g : GState) (fs : FS) (filename : String)
    (habs : startsSlash g.target_dir = true) :
    (fsLookup fs (path_join g.target_dir filename) = Option.none →
      get_file g fs filename =
        Except.error (PyErr.http ⟨400, file_not_found_msg g filename⟩) ∧
      filename.data <:+: (file_not_found_msg g filename).data ∧
      g.url.data <:+: (file_not_found_msg g filename).data) ∧
    (∀ c, fsLookup fs (path_join g.target_dir filename) = some c →
      get_file g fs filename = Except.ok c) := by
  have hj : path_join g.target_dir (path_join g.target_dir filename) =
      path_join g.target_dir filename :=
    path_join_of_startsSlash _ _ (startsSlash_path_join _ filename habs)
  constructor
  · intro hnone
    refine ⟨?_, ?_, ?_⟩
    · unfold get_file
      simp [hnone]
    · exact ⟨"Файл ".data,
        (" не найден в репозитории <a href=\"" ++ g.url ++
          "\" class=\"font-weight-bold\" target=\"_blank\"><u>" ++ g.url ++
          "</u></a>").data,
        by simp [file_not_found_msg, String.data_append]⟩
    · exact ⟨("Файл " ++ filename ++ " не найден в репозитории <a href=\"").data,
        ("\" class=\"font-weight-bold\" target=\"_blank\"><u>" ++ g.url ++
          "</u></a>").data,
        by simp [file_not_found_msg, String.data_append]⟩
  · intro c hc
    unfold get_file
    simp [hj, hc]

/-- Witness for C6: reading an existing file returns its content; a missing
file yields the FileNotFound exception. -/
theorem C6_get_file_witness :
    get_file ⟨"http://u", "main", "/t"⟩ [("/t/a.py", "hi")] "a.py" =
      Except.ok "hi" ∧
    get_file ⟨"http://u", "main", "/t"⟩ [] "b.py" =
      Except.error (PyErr.http
        ⟨400, file_not_found_msg ⟨"http://u", "main", "/t"⟩ "b.py"⟩) :=
  ⟨(C6_get_file ⟨"http://u", "main", "/t"⟩ [("/t/a.py", "hi")] "a.py" rfl).2 "hi" rfl,
   ((C6_get_file ⟨"http://u", "main", "/t"⟩ [] "b.py" rfl).1 rfl).1⟩

theorem check_lines_append_ok (g : GState) (fn content : String) (ph : Phrase)
    (fc : String) (ls1 ls2 : List String)
    (h : ∀ l ∈ ls1, (pyStrip l).data <:+: fc.data) :
    check_lines g fn content ph fc (ls1 ++ ls2) =
      (ls1.map (Ev.checkLine fn) ++ (check_lines g fn content ph fc ls2).1,
        (check_lines g fn content ph fc ls2).2) := by
  induction ls1 with
  | nil => simp
  | cons l rest ih =>
    have hl : (pyStrip l).data <:+: fc.data := h l (by simp)
    simp only [List.cons_append, check_lines, if_pos hl]
    simp only [List.append_eq]
    rw [ih (fun x hx => h x (by simp [hx]))]
    simp

theorem check_lines_first_fail (g : GState) (fn content : String) (ph : Phrase)
    (fc : String) (l : String) (ls2 : List String)
    (h : ¬ (pyStrip l).data <:+: fc.data) :
    check_lines g fn content ph fc (l :: ls2) =
      ([Ev.checkLine fn l],
        Except.error (PyErr.http ⟨400, content_mismatch_msg g fn content ph⟩)) := by
  simp only [check_lines, if_neg h]

theorem check_phrases_fail_head (g : GState) (fn fc : String) (ph : Phrase)
    (ps : List Phrase) (t : List Ev) (e : PyErr)
    (h : check_lines g fn (pyStrip ph.content) ph fc
      (pySplitChar '\n' (pyStrip ph.content)) = (t, Except.error e)) :
    check_phrases g fn fc (ph :: ps) = (t, Except.error e) := by
  simp [check_phrases, h]

theorem check_phrases_append_ok (g : GState) (fn fc : String)
    (ps1 ps2 : List Phrase) (t : List Ev)
    (h : check_phrases g fn fc ps1 = (t, Except.ok ())) :
    check_phrases g fn fc (ps1 ++ ps2) =
      (t ++ (check_phrases g fn fc ps2).1, (check_phrases g fn fc ps2).2) := by
  induction ps1 generalizing t with
  | nil =>
    simp only [check_phrases, Prod.mk.injEq] at h
    rw [← h.1]
    simp
  | cons ph rest ih =>
    cases hcl : (check_lines g fn (pyStrip ph.content) ph fc
        (pySplitChar '\n' (pyStrip ph.content))).2 with
    | error e =>
      simp only [check_phrases, hcl, Prod.mk.injEq] at h
      exact absurd h.2 (by simp)
    | ok u =>
      cases u
      simp only [check_phrases, hcl, Prod.mk.injEq] at h
      obtain ⟨ht, hrest⟩ := h
      cases hrp : check_phrases g fn fc rest with
      | mk tr rr =>
        rw [hrp] at ht hrest
        simp only at ht hrest
        simp only [List.cons_append, check_phrases, hcl]
        simp only [List.append_eq]
        rw [ih tr (by rw [hrp, ← hrest])]
        simp [← ht, List.append_assoc]

theorem check_files_fail_file (g : GState) (fs : FS) (fc : FileCheck)
    (cs : List FileCheck) (e : PyErr)
    (h : get_file g fs fc.filename = Except.error e) :
    check_files g fs (fc :: cs) = ([Ev.getFile fc.filename], Except.error e) := by
  simp [check_files, h]

theorem check_files_fail_phrases (g : GState) (fs : FS) (fc : FileCheck)
    (cs : List FileCheck) (fcontent : String) (t : List Ev) (e : PyErr)
    (hok : get_file g fs fc.filename = Except.ok fcontent)
    (h : check_phrases g fc.filename fcontent fc.phrases = (t, Except.error e)) :
    check_files g fs (fc :: cs) =
      (Ev.getFile fc.filename :: t, Except.error e) := by
  simp [check_files, hok, h]

theorem check_files_append_ok (g : GState) (fs : FS)
    (cs1 cs2 : List FileCheck) (t : List Ev)
    (h : check_files g fs cs1 = (t, Except.ok ())) :
    check_files g fs (cs1 ++ cs2) =
      (t ++ (check_files g fs cs2).1, (check_files g fs cs2).2) := by
  induction cs1 generalizing t with
  | nil =>
    simp only [check_files, Prod.mk.injEq] at h
    rw [← h.1]
    simp
  | cons fc rest ih =>
    cases hgf : get_file g fs fc.filename with
    | error e =>
      simp only [check_files, hgf, Prod.mk.injEq] at h
      exact absurd h.2 (by simp)
    | ok fcontent =>
      cases hcp : (check_phrases g fc.filename fcontent fc.phrases).2 with
      | error e =>
        simp only [check_files, hgf, hcp, Prod.mk.injEq] at h
        exact absurd h.2 (by simp)
      | ok u =>
        cases u
        simp only [check_files, hgf, hcp, Prod.mk.injEq] at h
        obtain ⟨ht, hrest⟩ := h
        cases hrp : check_files g fs rest with
        | mk tr rr =>
          rw [hrp] at ht hrest
          simp only at ht hrest
          simp only [List.cons_append, check_files, hgf, hcp]
          simp only [List.append_eq]
          rw [ih tr (by rw [hrp, ← hrest])]
          simp [← ht, List.append_assoc]

theorem content_mismatch_msg_parts (g : GState) (fn content : String)
    (ph : Phrase) :
    fn.data <:+: (content_mismatch_msg g fn content ph).data ∧
    (ph.pre ++ "<pre><code>" ++ content ++ "</code></pre>").data <:+:
      (content_mismatch_msg g fn content ph).data := by
  unfold content_mismatch_msg current_file_link
  by_cases hp : ph.post ≠ ""
  · rw [if_pos hp]
    constructor
    · exact ⟨("Файл " ++ "<a href=\"" ++ g.url ++ "/blob/" ++
        g.default_branch ++ "/").data,
        ("\" class=\"font-weight-bold\" target=\"_blank\"><u>" ++ fn ++
          "</u></a>" ++ " должен содержать " ++ ph.pre ++ "<pre><code>" ++
          content ++ "</code></pre>" ++ "\n" ++ ph.post).data,
        by simp [String.data_append]⟩
    · exact ⟨("Файл " ++ "<a href=\"" ++ g.url ++ "/blob/" ++
        g.default_branch ++ "/" ++ fn ++
        "\" class=\"font-weight-bold\" target=\"_blank\"><u>" ++ fn ++
        "</u></a>" ++ " должен содержать ").data,
        ("\n" ++ ph.post).data,
        by simp [String.data_append]⟩
  · rw [if_neg hp]
    constructor
    · exact ⟨("Файл " ++ "<a href=\"" ++ g.url ++ "/blob/" ++
        g.default_branch ++ "/").data,
        ("\" class=\"font-weight-bold\" target=\"_blank\"><u>" ++ fn ++
          "</u></a>" ++ " должен содержать " ++ ph.pre ++ "<pre><code>" ++
          content ++ "</code></pre>").data,
        by simp [String.data_append]⟩
    · exact ⟨("Файл " ++ "<a href=\"" ++ g.url ++ "/blob/" ++
        g.default_branch ++ "/" ++ fn ++
        "\" class=\"font-weight-bold\" target=\"_blank\"><u>" ++ fn ++
        "</u></a>" ++ " должен содержать ").data,
        ([] : List Char),
        by simp [String.data_append]⟩

/-! ## Claim C4: `files_contains` -/

/-- Claim C4: `files_contains` performs the refresh first (the first recorded
event is the update), then processes the checks in order: a failing file
retrieval propagates its error with no further evaluation, and the first
phrase line that (after stripping) is not a substring of the file's content
raises the ContentMismatch `HTTPException` — whose message carries the
filename and the phrase's annotated content block — with no subsequent line,
phrase or check evaluated (the event trace ends at the failing line). -/
theorem C4_files_contains (g : GState) (fs : FS) (cs1 cs2 : List FileCheck)
    (fc : FileCheck) (t1 : List Ev) :
    (files_contains g fs (cs1 ++ fc :: cs2)).1.head? = some Ev.update ∧
    (check_files g fs cs1 = (t1, Except.ok ()) →
      ((∀ e, get_file g fs fc.filename = Except.error e →
        files_contains g fs (cs1 ++ fc :: cs2) =
          (Ev.update :: (t1 ++ [Ev.getFile fc.filename]), Except.error e)) ∧
      (∀ fcontent ps1 ph ps2 t2 ls1 l ls2,
        get_file g fs fc.filename = Except.ok fcontent →
        fc.phrases = ps1 ++ ph :: ps2 →
        check_phrases g fc.filename fcontent ps1 = (t2, Except.ok ()) →
        pySplitChar '\n' (pyStrip ph.content) = ls1 ++ l :: ls2 →
        (∀ l2 ∈ ls1, (pyStrip l2).data <:+: fcontent.data) →
        ¬ (pyStrip l).data <:+: fcontent.data →
        files_contains g fs (cs1 ++ fc :: cs2) =
          (Ev.update :: (t1 ++ Ev.getFile fc.filename ::
            (t2 ++ (ls1.map (Ev.checkLine fc.filename) ++
              [Ev.checkLine fc.filename l]))),
            Except.error (PyErr.http ⟨400,
              content_mismatch_msg g fc.filename (pyStrip ph.content) ph⟩)) ∧
        fc.filename.data <:+:
          (content_mismatch_msg g fc.filename (pyStrip ph.content) ph).data ∧
        (ph.pre ++ "<pre><code>" ++ pyStrip ph.content ++ "</code></pre>").data <:+:
          (content_mismatch_msg g fc.filename (pyStrip ph.content) ph).data))) := by
  constructor
  · rfl
  · intro h1
    constructor
    · intro e he
      unfold files_contains
      rw [check_files_append_ok g fs cs1 (fc :: cs2) t1 h1,
        check_files_fail_file g fs fc cs2 e he]
    · intro fcontent ps1 ph ps2 t2 ls1 l ls2 hok hphr hps1 hsplit hall hmiss
      have hlines : check_lines g fc.filename (pyStrip ph.content) ph fcontent
          (pySplitChar '\n' (pyStrip ph.content)) =
          (ls1.map (Ev.checkLine fc.filename) ++ [Ev.checkLine fc.filename l],
            Except.error (PyErr.http ⟨400,
              content_mismatch_msg g fc.filename (pyStrip ph.content) ph⟩)) := by
        rw [hsplit,
          check_lines_append_ok g fc.filename (pyStrip ph.content) ph fcontent
            ls1 (l :: ls2) hall,
          check_lines_first_fail g fc.filename (pyStrip ph.content) ph fcontent
            l ls2 hmiss]
      have hphr1 : check_phrases g fc.filename fcontent (ph :: ps2) =
          (ls1.map (Ev.checkLine fc.filename) ++ [Ev.checkLine fc.filename l],
            Except.error (PyErr.http ⟨400,
              content_mismatch_msg g fc.filename (pyStrip ph.content) ph⟩)) :=
        check_phrases_fail_head g fc.filename fcontent ph ps2 _ _ hlines
      have hphr2 : check_phrases g fc.filename fcontent fc.phrases =
          (t2 ++ (ls1.map (Ev.checkLine fc.filename) ++
            [Ev.checkLine fc.filename l]),
            Except.error (PyErr.http ⟨400,
              content_mismatch_msg g fc.filename (pyStrip ph.content) ph⟩)) := by
        rw [hphr, check_phrases_append_ok g fc.filename fcontent ps1 (ph :: ps2)
          t2 hps1, hphr1]
      have hcf : check_files g fs (fc :: cs2) =
          (Ev.getFile fc.filename :: (t2 ++ (ls1.map (Ev.checkLine fc.filename) ++
            [Ev.checkLine fc.filename l])),
            Except.error (PyErr.http ⟨400,
              content_mismatch_msg g fc.filename (pyStrip ph.content) ph⟩)) :=
        check_files_fail_phrases g fs fc cs2 fcontent _ _ hok hphr2
      refine ⟨?_, (content_mismatch_msg_parts g fc.filename (pyStrip ph.content) ph).1,
        (content_mismatch_msg_parts g fc.filename (pyStrip ph.content) ph).2⟩
      unfold files_contains
      rw [check_files_append_ok g fs cs1 (fc :: cs2) t1 h1, hcf]

/-- Witness for C4: on a file containing `hello import world`, the phrase
block ` hello \n import ` passes line by line, then the phrase `zzz` fails at
its only line; the event trace starts with the refresh and ends at the
failing line, and the error message carries the filename and the annotated
phrase. -/
theorem C4_files_contains_witness :
    files_contains ⟨"u", "main", "/t"⟩ [("/t/f.py", "hello import world")]
      [⟨"f.py", [⟨" hello \n import ", "P", "Q"⟩, ⟨"zzz", "", ""⟩]⟩] =
      ([Ev.update, Ev.getFile "f.py", Ev.checkLine "f.py" "hello ",
        Ev.checkLine "f.py" " import", Ev.checkLine "f.py" "zzz"],
        Except.error (PyErr.http ⟨400,
          content_mismatch_msg ⟨"u", "main", "/t"⟩ "f.py" "zzz" ⟨"zzz", "", ""⟩⟩)) ∧
    ("f.py" : String).data <:+:
      (content_mismatch_msg ⟨"u", "main", "/t"⟩ "f.py" "zzz" ⟨"zzz", "", ""⟩).data := by
  have h := (C4_files_contains ⟨"u", "main", "/t"⟩
    [("/t/f.py", "hello import world")] []
    [] ⟨"f.py", [⟨" hello \n import ", "P", "Q"⟩, ⟨"zzz", "", ""⟩]⟩ []).2 rfl
  have h2 := h.2 "hello import world" [⟨" hello \n import ", "P", "Q"⟩]
    ⟨"zzz", "", ""⟩ [] [Ev.checkLine "f.py" "hello ", Ev.checkLine "f.py" " import"]
    [] "zzz" [] rfl rfl rfl rfl (by simp) (by decide)
  exact ⟨h2.1, h2.2.1⟩

/-! ## Claim C3: pruning discipline of `_get_tree` -/

/-- Claim C3: at a recursion depth `idx` inside the path sequence, a tree node
whose lower-cased name differs from the lower-cased `path[idx]` is pruned —
the result dictionary is returned unchanged, so no entry is added for the node
or any descendant; at any depth at or beyond the path sequence's length no
node is pruned — the node's entry is present in any successfully returned
dictionary. -/
theorem C3_pruning (res : ResDict) (t : GitTree) (path : List String) (idx : Nat)
    (cps : Option (List ContentProcessors)) :
    (∀ (h : idx < path.length),
      pyLower (GitTree.name t) ≠ pyLower (path.get ⟨idx, h⟩) →
      _get_tree res t path idx cps = some res) ∧
    (path.length ≤ idx → ∀ r, _get_tree res t path idx cps = some r →
      dictGet r (GitTree.name t) ≠ Option.none) := by
  constructor
  · intro h hne
    have hD : path.getD idx "" = path.get ⟨idx, h⟩ := by
      simp [List.getD_eq_getElem?_getD, List.getElem?_eq_getElem h]
    apply _get_tree_pruned
    unfold pruned
    rw [hD]
    simp only [Bool.and_eq_true, decide_eq_true_eq, bne_iff_ne]
    exact ⟨h, hne⟩
  · intro hlen r hr
    cases t with
    | mk name blobs trees =>
      have hnl : ¬ idx < path.length := Nat.not_lt.mpr hlen
      have hp : pruned (GitTree.mk name blobs trees) path idx = false := by
        unfold pruned
        simp [hnl]
      exact _get_tree_key name blobs trees path idx cps res r hp hr

/-- Witness for C3: the node `sub` is pruned at depth 1 against the path
`['', 'nope']`, and is materialized (its key is present) at depth 1 against
the exhausted path `['']`. -/
theorem C3_pruning_witness :
    _get_tree [] (GitTree.mk "sub" [] []) ["", "nope"] 1 Option.none = some [] ∧
    dictGet [("sub", Val.vdict [])] "sub" ≠ Option.none := by
  constructor
  · exact (C3_pruning [] (GitTree.mk "sub" [] []) ["", "nope"] 1 Option.none).1
      (by decide) (by decide)
  · exact (C3_pruning [] (GitTree.mk "sub" [] []) [""] 1 Option.none).2
      (by decide) [("sub", Val.vdict [])] rfl

/-! ## Claim C1: `get_tree` with a path matching no directory -/

/-- Claim C1 fails as stated: for a path matching no directory, `get_tree`
does not return an empty structure.  The root tree (name `''`) always matches
the inserted empty root segment, so the result contains the root's entry —
including the root's own `files` list when the root has blobs.  On
`sampleRoot` with path `nope` (which matches its only subdirectory `sub`
under no case folding) the result carries the root's file record, and is not
the empty dictionary. -/
theorem C1_counterexample :
    get_tree sampleRoot (PathArg.strPath "nope") Option.none =
      some [("", Val.vdict [("files", Val.vfiles [⟨"a.txt", Option.none⟩])])] ∧
    get_tree sampleRoot (PathArg.strPath "nope") Option.none ≠ some [] ∧
    GitTree.trees sampleRoot = [GitTree.mk "sub" [⟨"s.txt", [66]⟩] []] ∧
    pyLower "sub" ≠ pyLower "nope" := by
  refine ⟨rfl, ?_, rfl, by decide⟩
  intro h
  have h2 : (some [("", Val.vdict [("files", Val.vfiles [⟨"a.txt", Option.none⟩])])] :
      Option ResDict) = some [] := h
  exact List.noConfusion (Option.some.inj h2)

/-- Claim C1 amended: for every branch root tree and every path whose first
segment beyond the root segment matches no child of the root
case-insensitively, `get_tree` raises no error and returns a structure whose
only entry is the root segment's own entry — the root's `files` list when the
root has blobs, an empty dictionary otherwise — with no entry for any
subdirectory. -/
theorem C1_no_match_root_only (root : GitTree) (parg : PathArg)
    (p1 : String) (rest : List String)
    (hroot : GitTree.name root = "")
    (hnorm : normalize_path parg = some ("" :: p1 :: rest))
    (hmiss : ∀ c ∈ GitTree.trees root, pyLower (GitTree.name c) ≠ pyLower p1) :
    get_tree root parg Option.none =
      some [("", Val.vdict (if (GitTree.blobs root).isEmpty
        then ([] : List (String × Val))
        else [("files", Val.vfiles ((GitTree.blobs root).map
          (fun b => ⟨b.name, Option.none⟩)))]))] := by
  cases root with
  | mk name blobs trees =>
    simp only [GitTree.name] at hroot
    subst hroot
    simp only [GitTree.trees] at hmiss
    simp only [GitTree.blobs]
    unfold get_tree
    rw [hnorm]
    have hp : pruned (GitTree.mk "" blobs trees) ("" :: p1 :: rest) 0 = false := by
      unfold pruned
      simp [List.getD, GitTree.name]
    have hprune1 : ∀ t ∈ trees, pruned t ("" :: p1 :: rest) 1 = true := by
      intro t htm
      unfold pruned
      simp only [Bool.and_eq_true, decide_eq_true_eq, bne_iff_ne]
      exact ⟨by simp, by simpa [List.getD] using hmiss t htm⟩
    by_cases hb : blobs.isEmpty
    · have hfs : filesStep (ensureKey [] "") "" blobs Option.none =
          some [("", Val.vdict [])] := by
        unfold filesStep
        rw [if_pos hb]
        rfl
      simp only [_get_tree, hp, Bool.false_eq_true, if_false, hfs]
      by_cases ht : trees.isEmpty
      · simp [ht, hb]
      · have hch : _get_tree_children (innerDict [("", Val.vdict [])] "") trees
            ("" :: p1 :: rest) 1 Option.none = some [] := by
          have hin : innerDict [("", Val.vdict [])] "" = [] := rfl
          rw [hin]
          exact _get_tree_children_pruned trees [] _ 1 _ hprune1
        simp only [ht, Bool.false_eq_true, if_false, hch]
        simp [hb, dictSet]
    · have hfs : filesStep (ensureKey [] "") "" blobs Option.none =
          some [("", Val.vdict [("files",
            Val.vfiles (blobs.map (fun b => ⟨b.name, Option.none⟩)))])] := by
        unfold filesStep
        rw [if_neg hb, mkFileDicts_none]
        rfl
      simp only [_get_tree, hp, Bool.false_eq_true, if_false, hfs]
      by_cases ht : trees.isEmpty
      · simp [ht, hb]
      · have hch : _get_tree_children
            (innerDict [("", Val.vdict [("files",
              Val.vfiles (blobs.map (fun b => ⟨b.name, Option.none⟩)))])] "")
            trees ("" :: p1 :: rest) 1 Option.none =
            some [("files", Val.vfiles (blobs.map (fun b => ⟨b.name, Option.none⟩)))] := by
          have hin : innerDict [("", Val.vdict [("files",
              Val.vfiles (blobs.map (fun b => ⟨b.name, Option.none⟩)))])] "" =
              [("files", Val.vfiles (blobs.map (fun b => ⟨b.name, Option.none⟩)))] := rfl
          rw [hin]
          exact _get_tree_children_pruned trees _ _ 1 _ hprune1
        simp only [ht, Bool.false_eq_true, if_false, hch]
        simp [hb, dictSet]

/-- Witness for the amended C1 on `sampleRoot` with the no-match path
`zzz`. -/
theorem C1_no_match_root_only_witness :
    get_tree sampleRoot (PathArg.strPath "zzz") Option.none =
      some [("", Val.vdict [("files", Val.vfiles [⟨"a.txt", Option.none⟩])])] := by
  have h := C1_no_match_root_only sampleRoot (PathArg.strPath "zzz") "zzz" [] rfl rfl
    (by intro c hc; simp [sampleRoot, GitTree.trees] at hc; subst hc; decide)
  exact h

/-! ## Claim C2: `get_branches_names` and the remote-qualifying prefix -/

/-- Claim C2 fails as stated: `str.replace('origin/', '')` removes every
occurrence, not only a leading prefix.  For a remote branch named
`origin/dev` (reference `origin/origin/dev`) the code returns `dev`, while
the prefix-stripped name is `origin/dev`; and for a remote branch named
`origorigin/in/x` the code returns `origin/x`, which still carries a
remote-qualifying prefix. -/
theorem C2_counterexample :
    get_branches_names ⟨["origin/dev", "origorigin/in/x"]⟩ = ["dev", "origin/x"] ∧
    stripRemotePrefixSpec "origin/origin/dev" = "origin/dev" ∧
    ("dev" : String) ≠ "origin/dev" ∧
    "origin/".data.isPrefixOf ("origin/x" : String).data = true := by
  refine ⟨by decide, by decide, by decide, by decide⟩

/-- Claim C2 amended: for fetch states in which no remote branch name itself
contains the substring `origin/` (all realistic states), every name returned
by `get_branches_names` is the corresponding remote reference's name with the
remote-qualifying prefix stripped — the returned list is exactly the remote
branch names — and every returned name is free of the remote-qualifying
prefix.  (In general the code removes every occurrence of `origin/`, not only
the leading one.) -/
theorem C2_branches_names (st : FetchState)
    (hclean : ∀ b ∈ st.remote_branch_names, ¬ ("origin/".data <:+: b.data)) :
    get_branches_names st =
      (get_remote_branches st).map (fun r => stripRemotePrefixSpec r.name) ∧
    get_branches_names st = st.remote_branch_names ∧
    ∀ n ∈ get_branches_names st, ¬ ("origin/".data.isPrefixOf n.data = true) := by
  have h2 : get_branches_names st = st.remote_branch_names := by
    unfold get_branches_names get_remote_branches
    rw [List.map_map]
    have : ∀ b ∈ st.remote_branch_names,
        strReplace ("origin/" ++ b) "origin/" "" = b := by
      intro b hb
      exact strReplace_strip_prefix b (hclean b hb)
    calc st.remote_branch_names.map
          ((fun x : RemoteReference => strReplace x.name "origin/" "") ∘
            (fun b => ⟨"origin/" ++ b⟩))
        = st.remote_branch_names.map id := List.map_congr_left (fun b hb => this b hb)
      _ = st.remote_branch_names := List.map_id _
  refine ⟨?_, h2, ?_⟩
  · have h1 : (get_remote_branches st).map (fun r => stripRemotePrefixSpec r.name) =
        st.remote_branch_names := by
      unfold get_remote_branches
      rw [List.map_map]
      calc st.remote_branch_names.map
            ((fun r : RemoteReference => stripRemotePrefixSpec r.name) ∘
              (fun b => ⟨"origin/" ++ b⟩))
          = st.remote_branch_names.map id :=
            List.map_congr_left (fun b _ => stripRemotePrefixSpec_append b)
        _ = st.remote_branch_names := List.map_id _
    rw [h2, h1]
  · intro n hn hpre
    rw [h2] at hn
    exact hclean n hn (List.isPrefixOf_iff_prefix.mp hpre).isInfix

/-- Witness for the amended C2 at a concrete fetch state with branches
`main` and `dev/feature`. -/
theorem C2_branches_names_witness :
    get_branches_names ⟨["main", "dev/feature"]⟩ = ["main", "dev/feature"] :=
  (C2_branches_names ⟨["main", "dev/feature"]⟩ (by decide)).2.1

/-! ## Claim C5: path normalization in `get_tree` -/

/-- Claim C5: `get_tree` normalizes its path argument: an absent path becomes
the single-segment sequence `['']`; a string path is split on `'/'` (a
nonempty list always results); and a non-empty segment list is prefixed with
an empty root segment exactly when its first element is not already the empty
segment. -/
theorem C5_normalize_path :
    normalize_path PathArg.nonePath = some [""] ∧
    (∀ s x xs, pySplitChar '/' s = x :: xs →
      (x = "" → normalize_path (PathArg.strPath s) = some (x :: xs)) ∧
      (x ≠ "" → normalize_path (PathArg.strPath s) = some ("" :: x :: xs))) ∧
    (∀ x xs, x ≠ "" →
      normalize_path (PathArg.listPath (x :: xs)) = some ("" :: x :: xs)) ∧
    (∀ xs, normalize_path (PathArg.listPath ("" :: xs)) = some ("" :: xs)) := by
  refine ⟨rfl, ?_, ?_, ?_⟩
  · intro s x xs h
    constructor
    · intro hx
      simp [normalize_path, h, hx]
    · intro hx
      simp [normalize_path, h, hx]
  · intro x xs hx
    simp [normalize_path, hx]
  · intro xs
    simp [normalize_path]

/-- Witness for C5 at concrete inputs. -/
theorem C5_normalize_path_witness :
    normalize_path (PathArg.strPath "a/b") = some ["", "a", "b"] ∧
    normalize_path (PathArg.strPath "/a") = some ["", "a"] ∧
    normalize_path (PathArg.listPath ["x"]) = some ["", "x"] := by
  refine ⟨?_, ?_, ?_⟩
  · exact ((C5_normalize_path.2.1 "a/b" "a" ["b"] (by decide)).2 (by decide))
  · exact ((C5_normalize_path.2.1 "/a" "" ["a"]) (by decide)).1 (by decide)
  · exact C5_normalize_path.2.2.1 "x" [] (by decide)

/-! ## Claim C7: `Locker.is_locked` -/

/-- Claim C7: for a present lock marker, `is_locked` returns `false` and
deletes the marker when the recorded expiry instant has passed, and returns
`true` leaving the marker in place otherwise; in particular an expired lock is
treated as unlocked and its marker is removed by the very check. -/
theorem C7_is_locked (t now : Int) :
    (t < now → is_locked (some t) now = (false, Option.none)) ∧
    (¬ t < now → is_locked (some t) now = (true, some t)) := by
  constructor
  · intro h
    simp [is_locked, h]
  · intro h
    simp [is_locked, h]

/-- Witness for C7: an expired marker (expiry `3`, now `5`) is reported
unlocked and removed; an unexpired marker (expiry `5`, now `5`) is reported
locked and kept. -/
theorem C7_is_locked_witness :
    is_locked (some 3) 5 = (false, Option.none) ∧
    is_locked (some 5) 5 = (true, some 5) :=
  ⟨(C7_is_locked 3 5).1 (by decide), (C7_is_locked 5 5).2 (by decide)⟩

/-! ## Claim C8: clone failure during construction -/

/-- Claim C8: when no valid mirror exists and the clone fails, construction
removes the target directory again and fails with the
repository-unavailable `HTTPException` whose message carries the locator and
the underlying git error; the final state has no directory and no
cloned flag. -/
theorem C8_init_clone_failure (repo default_branch e : String) (env : CtorEnv)
    (h1 : env.existing_valid = false) (h2 : env.clone = CloneRes.gitError e) :
    git_handler_init repo default_branch env =
      (⟨false, false⟩,
        Except.error ⟨400, "Repository " ++ repo ++ " does not exist. Error: " ++ e⟩) ∧
    repo.data <:+: ("Repository " ++ repo ++ " does not exist. Error: " ++ e).data ∧
    e.data <:+: ("Repository " ++ repo ++ " does not exist. Error: " ++ e).data := by
  refine ⟨by simp [git_handler_init, h1, h2], ?_, ?_⟩
  · exact ⟨"Repository ".data, " does not exist. Error: ".data ++ e.data,
      by simp [String.data_append]⟩
  · exact ⟨("Repository " ++ repo ++ " does not exist. Error: ").data, [],
      by simp [String.data_append]⟩

/-- Witness for C8: a failing clone of `https://h/o/r` with error `boom`. -/
theorem C8_init_clone_failure_witness :
    git_handler_init "https://h/o/r" "main"
      ⟨false, true, CloneRes.gitError "boom", "main", true, ""⟩ =
      (⟨false, false⟩,
        Except.error ⟨400, "Repository https://h/o/r does not exist. Error: boom"⟩) :=
  (C8_init_clone_failure "https://h/o/r" "main" "boom"
    ⟨false, true, CloneRes.gitError "boom", "main", true, ""⟩ rfl rfl).1

/-! ## Claim C9: idempotence of `cp_add_blob_content` -/

/-- Claim C9: attaching decoded text is idempotent — applying
`cp_add_blob_content` twice with the same blob yields the same `content`
field (indeed the same record) as applying it once. -/
theorem C9_cp_add_blob_content_idem (fd : FileDict) (b : Blob) :
    (cp_add_blob_content (cp_add_blob_content fd b) b).content =
      (cp_add_blob_content fd b).content ∧
    cp_add_blob_content (cp_add_blob_content fd b) b = cp_add_blob_content fd b := by
  simp [cp_add_blob_content]

/-! ## Claim C10: in-place mutation of the caller's path list -/

/-- Claim C10: a list path argument whose first element is not the empty
string is mutated in place — after `get_tree` the caller's list starts with
the inserted empty root segment and is exactly the normalized path — while a
`None` or string argument leaves the caller's object unchanged. -/
theorem C10_caller_path_mutation (x : String) (xs : List String) (s : String)
    (hx : x ≠ "") :
    get_tree_caller_path_after (PathArg.listPath (x :: xs)) =
      some (PathArg.listPath ("" :: x :: xs)) ∧
    normalize_path (PathArg.listPath (x :: xs)) = some ("" :: x :: xs) ∧
    get_tree_caller_path_after PathArg.nonePath = some PathArg.nonePath ∧
    get_tree_caller_path_after (PathArg.strPath s) = some (PathArg.strPath s) := by
  refine ⟨?_, ?_, rfl, rfl⟩
  · simp [get_tree_caller_path_after, hx]
  · simp [normalize_path, hx]

/-- Witness for C10 at a concrete list argument `['docs']` and string
argument `'docs'`. -/
theorem C10_caller_path_mutation_witness :
    get_tree_caller_path_after (PathArg.listPath ["docs"]) =
      some (PathArg.listPath ["", "docs"]) ∧
    get_tree_caller_path_after (PathArg.strPath "docs") =
      some (PathArg.strPath "docs") :=
  ⟨(C10_caller_path_mutation "docs" [] "docs" (by decide)).1,
   (C10_caller_path_mutation "docs" [] "docs" (by decide)).2.2.2⟩

end GitHandler
